import Mathlib

set_option maxHeartbeats 1000000

/-!
Formal model of `webencodings/__init__.py` (WHATWG encoding label
resolution and BOM-sensitive decode/encode orchestration).

Byte strings are `List Nat` (each element one byte value) and text
strings are `List Nat` (each element one Unicode code point; Python's
`str` admits lone surrogates, so plain code points rather than `Char`).

The orchestration code (`lookup`, `decode`, `encode`, `iterdecode`,
`iterencode`, `utf8_decode`, `utf8_encode`) is translated from the
source.  The codec engine (Python's `codecs` machinery and
`bytes.decode` / `str.encode`) and the `LABELS` table live outside the
source tree and are modelled from the spec, as marked on each such
definition.
-/

/-- Error modes handed to the codec engine; the spec requires at least
`strict` and `replace`. -/
inductive ErrorMode where
  | strict
  | replace
deriving DecidableEq

/-- Failures surfaced to a caller: `lookupError` models the
`LookupError` (`KeyError`) raised by `lookup` on an unknown label,
`codecError` models the `UnicodeDecodeError` / `UnicodeEncodeError`
raised by the codec engine under `strict`. -/
inductive Err where
  | lookupError
  | codecError
deriving DecidableEq

/-- Outcome of a Python call: a returned value or a raised error. -/
inductive PyResult where
  | ok (val : List Nat)
  | error (e : Err)
deriving DecidableEq

/-- Code points of a Lean string literal, used to transcribe Python
text literals into the model. -/
def strToCodes (s : String) : List Nat :=
  s.data.map Char.toNat

/-- Python's `startswith` with a single pattern, on byte lists. -/
def startsWith : List Nat → List Nat → Bool
  | [], _ => true
  | _ :: _, [] => false
  | p :: ps, b :: bs => p == b && startsWith ps bs

/-- Concatenation of a list of byte or text chunks. -/
def flat : List (List Nat) → List Nat
  | [] => []
  | c :: rest => c ++ flat rest

/-- Lookup in a `Nat`-keyed association list (a Python `dict` of code
points, as built by `dict(zip(...))`). -/
def assocFindNat (k : Nat) : List (Nat × Nat) → Option Nat
  | [] => none
  | (a, b) :: rest => if k == a then some b else assocFindNat k rest

/-- Reverse lookup in a `Nat`-keyed association list (used for the
encode direction of a decoding table). -/
def assocFindNatRev (v : Nat) : List (Nat × Nat) → Option Nat
  | [] => none
  | (a, b) :: rest => if v == b then some a else assocFindNatRev v rest

/-- Lookup in the string-keyed association list modelling the `LABELS`
dict: keys are labels as code-point lists, values are encoding names. -/
def assocFind (k : List Nat) : List (List Nat × String) → Option String
  | [] => none
  | (a, v) :: rest => if k == a then some v else assocFind k rest

/-- Prepend one code point to an optional decoded tail (`none`
propagates a codec failure). -/
def consOpt (c : Nat) : Option (List Nat) → Option (List Nat)
  | some t => some (c :: t)
  | none => none

/-- Prepend a chunk of code points to an optional decoded tail. -/
def appendOpt (s : List Nat) : Option (List Nat) → Option (List Nat)
  | some t => some (s ++ t)
  | none => none

/-- A Unicode scalar value: below 0x110000 and not a surrogate.
Python's UTF-8 codec encodes exactly these. -/
def validScalar (c : Nat) : Prop :=
  c < 0x110000 ∧ ¬(0xD800 ≤ c ∧ c ≤ 0xDFFF)

instance (c : Nat) : Decidable (validScalar c) := by
  unfold validScalar; infer_instance

/-- Modelled from the spec: the codec engine's UTF-8 encoding of one
scalar value (`str.encode('utf_8')`, outside src). -/
def utf8EncodeChar (c : Nat) : List Nat :=
  if c < 0x80 then [c]
  else if c < 0x800 then [0xC0 + c / 64, 0x80 + c % 64]
  else if c < 0x10000 then
    [0xE0 + c / 4096, 0x80 + c / 64 % 64, 0x80 + c % 64]
  else
    [0xF0 + c / 262144, 0x80 + c / 4096 % 64, 0x80 + c / 64 % 64, 0x80 + c % 64]

/-- Modelled from the spec: the codec engine's UTF-8 encoder over a
text.  Under `strict` a non-scalar code point (a lone surrogate) fails;
under `replace` it is substituted with `?` (0x3F), Python's behaviour. -/
def utf8Encode (e : ErrorMode) : List Nat → Option (List Nat)
  | [] => some []
  | c :: rest =>
    if validScalar c then
      appendOpt (utf8EncodeChar c) (utf8Encode e rest)
    else
      match e with
      | .strict => none
      | .replace => consOpt 0x3F (utf8Encode e rest)

/-- The UTF-8 encoding of a whole text, all of whose code points are
assumed scalar. -/
def utf8Bytes (s : List Nat) : List Nat :=
  flat (s.map utf8EncodeChar)

/-- Lower bound for the second byte of a 3- or 4-byte UTF-8 sequence,
as a function of the lead byte (WHATWG `utf-8 decode` ranges). -/
def utf8Lo (b : Nat) : Nat :=
  if b == 0xE0 then 0xA0 else if b == 0xF0 then 0x90 else 0x80

/-- Upper bound for the second byte of a 3- or 4-byte UTF-8 sequence,
as a function of the lead byte. -/
def utf8Hi (b : Nat) : Nat :=
  if b == 0xED then 0x9F else if b == 0xF4 then 0x8F else 0xBF

/-- State of the WHATWG incremental UTF-8 decoder: bytes still needed
for the current sequence, the accumulated code point, and the allowed
range for the next continuation byte. -/
structure U8State where
  need : Nat
  acc : Nat
  lo : Nat
  hi : Nat
deriving DecidableEq

/-- The initial (between-sequences) decoder state. -/
def u8init : U8State := ⟨0, 0, 0x80, 0xBF⟩

/-- Modelled from the spec: processing one byte in the initial state of
the WHATWG UTF-8 decoder.  Returns the next state, the emitted code
points, and whether this byte was an error (an invalid lead byte emits
one U+FFFD). -/
def utf8Start (b : Nat) : U8State × List Nat × Bool :=
  if b < 0x80 then (u8init, [b], false)
  else if 0xC2 ≤ b ∧ b ≤ 0xDF then (⟨1, b - 0xC0, 0x80, 0xBF⟩, [], false)
  else if 0xE0 ≤ b ∧ b ≤ 0xEF then (⟨2, b - 0xE0, utf8Lo b, utf8Hi b⟩, [], false)
  else if 0xF0 ≤ b ∧ b ≤ 0xF4 then (⟨3, b - 0xF0, utf8Lo b, utf8Hi b⟩, [], false)
  else (u8init, [0xFFFD], true)

/-- Modelled from the spec: one step of the WHATWG UTF-8 decoder.  A
continuation byte outside the expected range ends the (maximal) invalid
subpart with one U+FFFD and is reprocessed as a fresh lead byte, which
is exactly Python's `replace` substitution behaviour. -/
def utf8Step (s : U8State) (b : Nat) : U8State × List Nat × Bool :=
  if s.need = 0 then utf8Start b
  else if s.lo ≤ b ∧ b ≤ s.hi then
    if s.need = 1 then (u8init, [s.acc * 64 + (b - 0x80)], false)
    else (⟨s.need - 1, s.acc * 64 + (b - 0x80), 0x80, 0xBF⟩, [], false)
  else
    ((utf8Start b).1, 0xFFFD :: (utf8Start b).2.1, true)

/-- Modelled from the spec: the WHATWG incremental UTF-8 decode loop.
Under `strict`, the first error aborts; under `replace`, every emitted
U+FFFD is kept and decoding continues.  A truncated final sequence is
one more error. -/
def utf8DecodeLoop (e : ErrorMode) (s : U8State) : List Nat → Option (List Nat)
  | [] =>
    if s.need = 0 then some []
    else match e with | .strict => none | .replace => some [0xFFFD]
  | b :: rest =>
    match e, (utf8Step s b).2.2 with
    | .strict, true => none
    | _, _ => appendOpt (utf8Step s b).2.1 (utf8DecodeLoop e (utf8Step s b).1 rest)

/-- Modelled from the spec: the codec engine's UTF-8 decoder
(`bytes.decode('utf_8')`, outside src), the WHATWG decoder run from the
initial state. -/
def utf8Decode (e : ErrorMode) (bs : List Nat) : Option (List Nat) :=
  utf8DecodeLoop e u8init bs

/-- Modelled from the spec: one UTF-16 code unit from two bytes, in the
given byte order. -/
def utf16Unit (be : Bool) (b0 b1 : Nat) : Nat :=
  if be then b0 * 256 + b1 else b1 * 256 + b0

/-- Modelled from the spec: decoding of a UTF-16 code-unit stream (the
core of the codec engine's `utf_16_be` / `utf_16_le`, outside src).
Surrogate pairs combine; a lone surrogate or a truncated final unit is
an error (`replace`: one U+FFFD per offending unit). -/
def utf16DecodeUnits (e : ErrorMode) (be : Bool) : List Nat → Option (List Nat)
  | [] => some []
  | [_] => match e with | .strict => none | .replace => some [0xFFFD]
  | [b0, b1] =>
    if 0xD800 ≤ utf16Unit be b0 b1 ∧ utf16Unit be b0 b1 ≤ 0xDFFF then
      match e with | .strict => none | .replace => some [0xFFFD]
    else some [utf16Unit be b0 b1]
  | [b0, b1, _] =>
    if 0xD800 ≤ utf16Unit be b0 b1 ∧ utf16Unit be b0 b1 ≤ 0xDFFF then
      match e with | .strict => none | .replace => some [0xFFFD, 0xFFFD]
    else
      match e with
      | .strict => none
      | .replace => some [utf16Unit be b0 b1, 0xFFFD]
  | b0 :: b1 :: b2 :: b3 :: rest =>
    if 0xD800 ≤ utf16Unit be b0 b1 ∧ utf16Unit be b0 b1 ≤ 0xDBFF then
      if 0xDC00 ≤ utf16Unit be b2 b3 ∧ utf16Unit be b2 b3 ≤ 0xDFFF then
        consOpt (0x10000 + (utf16Unit be b0 b1 - 0xD800) * 1024 +
            (utf16Unit be b2 b3 - 0xDC00))
          (utf16DecodeUnits e be rest)
      else
        match e with
        | .strict => none
        | .replace => consOpt 0xFFFD (utf16DecodeUnits e be (b2 :: b3 :: rest))
    else if 0xDC00 ≤ utf16Unit be b0 b1 ∧ utf16Unit be b0 b1 ≤ 0xDFFF then
      match e with
      | .strict => none
      | .replace => consOpt 0xFFFD (utf16DecodeUnits e be (b2 :: b3 :: rest))
    else
      consOpt (utf16Unit be b0 b1) (utf16DecodeUnits e be (b2 :: b3 :: rest))

/-- Modelled from the spec: Python's `utf_16` codec — it picks BE or LE
from a leading BOM and consumes it, defaulting to the native (LE) order
when no BOM is present. -/
def utf16Decode (e : ErrorMode) (bs : List Nat) : Option (List Nat) :=
  if startsWith [0xFF, 0xFE] bs then utf16DecodeUnits e false (bs.drop 2)
  else if startsWith [0xFE, 0xFF] bs then utf16DecodeUnits e true (bs.drop 2)
  else utf16DecodeUnits e false bs

/-- Modelled from the spec: the windows-1252 table for bytes 0x80–0x9F
(Python's `cp1252`); the bytes absent here (0x81, 0x8D, 0x8F, 0x90,
0x9D) are undefined in that codec and error on decode. -/
def w1252Table : List (Nat × Nat) :=
  [(0x80, 0x20AC), (0x82, 0x201A), (0x83, 0x192), (0x84, 0x201E),
   (0x85, 0x2026), (0x86, 0x2020), (0x87, 0x2021), (0x88, 0x2C6),
   (0x89, 0x2030), (0x8A, 0x160), (0x8B, 0x2039), (0x8C, 0x152),
   (0x8E, 0x17D), (0x91, 0x2018), (0x92, 0x2019), (0x93, 0x201C),
   (0x94, 0x201D), (0x95, 0x2022), (0x96, 0x2013), (0x97, 0x2014),
   (0x98, 0x2DC), (0x99, 0x2122), (0x9A, 0x161), (0x9B, 0x203A),
   (0x9C, 0x153), (0x9E, 0x17E), (0x9F, 0x178)]

/-- Modelled from the spec: windows-1252 decoding of a single byte. -/
def w1252DecodeByte (b : Nat) : Option Nat :=
  if b < 0x80 then some b
  else if 0xA0 ≤ b ∧ b ≤ 0xFF then some b
  else assocFindNat b w1252Table

/-- Modelled from the spec: the codec engine's windows-1252 decoder. -/
def w1252Decode (e : ErrorMode) : List Nat → Option (List Nat)
  | [] => some []
  | b :: rest =>
    match w1252DecodeByte b with
    | some c => consOpt c (w1252Decode e rest)
    | none =>
      match e with
      | .strict => none
      | .replace => consOpt 0xFFFD (w1252Decode e rest)

/-- Modelled from the spec: windows-1252 encoding of one code point. -/
def w1252EncodeChar (c : Nat) : Option Nat :=
  if c < 0x80 then some c
  else if 0xA0 ≤ c ∧ c ≤ 0xFF then some c
  else assocFindNatRev c w1252Table

/-- Modelled from the spec: the codec engine's windows-1252 encoder
(`replace` substitutes `?`, Python's behaviour). -/
def w1252Encode (e : ErrorMode) : List Nat → Option (List Nat)
  | [] => some []
  | c :: rest =>
    match w1252EncodeChar c with
    | some b => consOpt b (w1252Encode e rest)
    | none =>
      match e with
      | .strict => none
      | .replace => consOpt 0x3F (w1252Encode e rest)

/-- Modelled from the spec: the codec engine's one-shot decode,
dispatching on the codec name selected by the orchestrator.  Only the
names reachable from the modelled Label Table plus the two BOM override
names are provided, matching the spec's invariant that every reachable
Canonical Encoding Name resolves to a codec the engine provides. -/
def engineDecode (name : String) (bs : List Nat) (e : ErrorMode) : Option (List Nat) :=
  match name with
  | "utf-8" => utf8Decode e bs
  | "utf_8_sig" =>
    if startsWith [0xEF, 0xBB, 0xBF] bs then utf8Decode e (bs.drop 3)
    else utf8Decode e bs
  | "utf_16" => utf16Decode e bs
  | "windows-1252" => w1252Decode e bs
  | _ => none

/-- Modelled from the spec: the codec engine's one-shot encode. -/
def engineEncode (name : String) (s : List Nat) (e : ErrorMode) : Option (List Nat) :=
  match name with
  | "utf-8" => utf8Encode e s
  | "windows-1252" => w1252Encode e s
  | _ => none

/-- `ASCII_WHITESPACE = '\t\n\f\r '` (src line 25): U+0009, U+000A,
U+000C, U+000D, U+0020. -/
def ASCII_WHITESPACE : List Nat := strToCodes "\t\n\x0c\r "

/-- `ASCII_LOWERCASE_MAP = dict(zip(map(ord, string.ascii_uppercase),
map(ord, string.ascii_lowercase)))` (src lines 27–28). -/
def ASCII_LOWERCASE_MAP : List (Nat × Nat) :=
  List.zip (strToCodes "ABCDEFGHIJKLMNOPQRSTUVWXYZ")
    (strToCodes "abcdefghijklmnopqrstuvwxyz")

/-- Python `str.strip(chars)`: remove leading and trailing characters
that occur in `chars`. -/
def pyStrip (chars : List Nat) (l : List Nat) : List Nat :=
  ((l.dropWhile (fun c => chars.contains c)).reverse.dropWhile
    (fun c => chars.contains c)).reverse

/-- Python `str.translate(mapping)`: map each code point through the
dict, leaving unmapped code points unchanged. -/
def pyTranslate (m : List (Nat × Nat)) (l : List Nat) : List Nat :=
  l.map (fun c => match assocFindNat c m with | some v => v | none => c)

/-- The normalized label computed inside `lookup` (src line 35):
`label.strip(ASCII_WHITESPACE).translate(ASCII_LOWERCASE_MAP)`. -/
def pyNormalize (label : List Nat) : List Nat :=
  pyTranslate ASCII_LOWERCASE_MAP (pyStrip ASCII_WHITESPACE label)

/-- Modelled from the spec: the Label Table (`LABELS` from
`webencodings/labels.py`, which is not under src) — an immutable map
from normalized label to Canonical Encoding Name, modelled by the
entries the spec exercises: the UTF-8 family and the windows-1252
family (which contains `ascii` in the WHATWG registry). -/
def LABELS : List (List Nat × String) :=
  [(strToCodes "unicode-1-1-utf-8", "utf-8"),
   (strToCodes "utf-8", "utf-8"),
   (strToCodes "utf8", "utf-8"),
   (strToCodes "ascii", "windows-1252"),
   (strToCodes "us-ascii", "windows-1252"),
   (strToCodes "cp1252", "windows-1252"),
   (strToCodes "latin1", "windows-1252"),
   (strToCodes "windows-1252", "windows-1252")]

/-- `lookup(label)` (src lines 31–35): the encoding name for a label;
`none` models the raised `LookupError`. -/
def lookup (label : List Nat) : Option String :=
  assocFind (pyNormalize label) LABELS

/-- Turn the codec engine's optional result into a Python outcome
(`none` is a raised codec error). -/
def pyResultOfOption : Option (List Nat) → PyResult
  | some t => .ok t
  | none => .error .codecError

/-- `decode(byte_string, label, errors)` (src lines 45–62): resolve the
label (raising on an unknown one even when a BOM is present), override
the encoding from a sniffed BOM, then delegate to the codec engine. -/
def decodeWith (byte_string : List Nat) (label : List Nat) (errors : ErrorMode) : PyResult :=
  match lookup label with
  | none => .error .lookupError
  | some encoding =>
    if startsWith [0xFF, 0xFE] byte_string || startsWith [0xFE, 0xFF] byte_string then
      pyResultOfOption (engineDecode "utf_16" byte_string errors)
    else if startsWith [0xEF, 0xBB, 0xBF] byte_string then
      pyResultOfOption (engineDecode "utf_8_sig" byte_string errors)
    else
      pyResultOfOption (engineDecode encoding byte_string errors)

/-- `decode` called without an explicit `errors` argument: the source
default is `'replace'` (src line 45). -/
def decode (byte_string : List Nat) (label : List Nat) : PyResult :=
  decodeWith byte_string label .replace

/-- `encode(unicode_string, label, errors)` (src lines 65–67): no BOM
logic; delegate under the label-resolved name. -/
def encodeWith (unicode_string : List Nat) (label : List Nat) (errors : ErrorMode) : PyResult :=
  match lookup label with
  | none => .error .lookupError
  | some encoding => pyResultOfOption (engineEncode encoding unicode_string errors)

/-- `encode` called without an explicit `errors` argument: the source
default is `'strict'` (src line 65). -/
def encode (unicode_string : List Nat) (label : List Nat) : PyResult :=
  encodeWith unicode_string label .strict

/-- The BOM-sniffing buffering loop of `iterdecode` (src lines 84–97):
returns the final encoding name, the accumulated buffer, and the
not-yet-pulled chunks. -/
def bomLoop (encoding : String) (chunks : List (List Nat)) (buffer : List Nat) :
    String × List Nat × List (List Nat) :=
  match chunks with
  | [] => (encoding, buffer, [])
  | chunck :: iterator =>
    if startsWith [0xFF, 0xFE] (buffer ++ chunck) ||
        startsWith [0xFE, 0xFF] (buffer ++ chunck) then
      ("utf_16", buffer ++ chunck, iterator)
    else if startsWith [0xEF, 0xBB, 0xBF] (buffer ++ chunck) then
      ("utf_8_sig", buffer ++ chunck, iterator)
    else if 3 ≤ (buffer ++ chunck).length then
      (encoding, buffer ++ chunck, iterator)
    else
      bomLoop encoding iterator (buffer ++ chunck)

/-- Modelled from the spec: `codecs.iterdecode` (the codec engine's
streaming decode, outside src).  The engine owns cross-chunk decode
state, so the concatenation of its lazily yielded text chunks equals
the one-shot decode of the concatenated bytes; the stream is modelled
by that concatenated result. -/
def codecsIterdecode (chunks : List (List Nat)) (encoding : String) (errors : ErrorMode) :
    Option (List Nat) :=
  engineDecode encoding (flat chunks) errors

/-- Modelled from the spec: `codecs.iterencode` (the codec engine's
streaming encode, outside src), modelled by its concatenated result. -/
def codecsIterencode (texts : List (List Nat)) (encoding : String) (errors : ErrorMode) :
    Option (List Nat) :=
  engineEncode encoding (flat texts) errors

/-- `iterdecode(iterable, label, errors)` (src lines 70–99): resolve
the label up front, buffer chunks until a BOM decision, then hand
`[buffer] + remaining chunks` to the codec engine's streaming decode. -/
def iterdecodeWith (iterable : List (List Nat)) (label : List Nat) (errors : ErrorMode) :
    PyResult :=
  match lookup label with
  | none => .error .lookupError
  | some encoding =>
    pyResultOfOption
      (codecsIterdecode ((bomLoop encoding iterable []).2.1 ::
          (bomLoop encoding iterable []).2.2)
        (bomLoop encoding iterable []).1 errors)

/-- `iterdecode` called without an explicit `errors` argument: the
source default is `'strict'` (src line 70). -/
def iterdecode (iterable : List (List Nat)) (label : List Nat) : PyResult :=
  iterdecodeWith iterable label .strict

/-- `iterencode(iterable, label, errors)` (src lines 102–109). -/
def iterencodeWith (iterable : List (List Nat)) (label : List Nat) (errors : ErrorMode) :
    PyResult :=
  match lookup label with
  | none => .error .lookupError
  | some encoding => pyResultOfOption (codecsIterencode iterable encoding errors)

/-- `iterencode` called without an explicit `errors` argument: the
source default is `'strict'` (src line 102). -/
def iterencode (iterable : List (List Nat)) (label : List Nat) : PyResult :=
  iterencodeWith iterable label .strict

/-- `utf8_decode(byte_string, errors)` (src lines 115–119): decode via
`utf_8_sig`, which skips one leading UTF-8 BOM when present. -/
def utf8_decodeWith (byte_string : List Nat) (errors : ErrorMode) : PyResult :=
  pyResultOfOption (engineDecode "utf_8_sig" byte_string errors)

/-- `utf8_decode` called without an explicit `errors` argument: the
source default is `'strict'` (src line 115). -/
def utf8_decode (byte_string : List Nat) : PyResult :=
  utf8_decodeWith byte_string .strict

/-- `utf8_encode(unicode_string, errors)` (src lines 122–125): encode
via `utf_8` (Python's BOM-free UTF-8 codec, the engine's `utf-8`). -/
def utf8_encodeWith (unicode_string : List Nat) (errors : ErrorMode) : PyResult :=
  pyResultOfOption (engineEncode "utf-8" unicode_string errors)

/-- `utf8_encode` called without an explicit `errors` argument: the
source default is `'strict'` (src line 122). -/
def utf8_encode (unicode_string : List Nat) : PyResult :=
  utf8_encodeWith unicode_string .strict

/-- Spec section 3 (Normalized Label): exactly tab, line feed, form
feed, carriage return and space are the ASCII whitespace characters. -/
def specIsAsciiWs (c : Nat) : Bool :=
  c == 9 || c == 10 || c == 12 || c == 13 || c == 32

/-- Spec section 3: strip ASCII whitespace from both ends. -/
def specStrip (l : List Nat) : List Nat :=
  ((l.dropWhile specIsAsciiWs).reverse.dropWhile specIsAsciiWs).reverse

/-- Spec section 3: map every ASCII uppercase letter to its lowercase
counterpart; every other code point passes through unchanged. -/
def specLowerChar (c : Nat) : Nat :=
  if 65 ≤ c ∧ c ≤ 90 then c + 32 else c

/-- The spec's Normalized Label (sections 3 and 4.1), written from the
spec's words, to be compared with the source's normalization. -/
def specNormalize (l : List Nat) : List Nat :=
  (specStrip l).map specLowerChar

/-- The round trip claimed by the spec: one-shot encode with the
`utf-8` label, then one-shot decode of the result with the same label,
both under their default error modes. -/
def utf8RoundTrip (s : List Nat) : PyResult :=
  match encode s (strToCodes "utf-8") with
  | .ok bs => decode bs (strToCodes "utf-8")
  | .error e => .error e

theorem appendOpt_nil (o : Option (List Nat)) : appendOpt [] o = o := by
  cases o <;> rfl

theorem appendOpt_single (c : Nat) (o : Option (List Nat)) :
    appendOpt [c] o = consOpt c o := by
  cases o <;> rfl

theorem consOpt_isSome (c : Nat) (o : Option (List Nat)) :
    (consOpt c o).isSome = o.isSome := by
  cases o <;> rfl

theorem appendOpt_isSome (s : List Nat) (o : Option (List Nat)) :
    (appendOpt s o).isSome = o.isSome := by
  cases o <;> rfl

theorem startsWith_two {a b : Nat} {l : List Nat} :
    startsWith [a, b] l = true ↔ ∃ t, l = a :: b :: t := by
  constructor
  · intro h
    match l with
    | [] => simp [startsWith] at h
    | [x] => simp [startsWith] at h
    | x :: y :: t =>
      simp [startsWith] at h
      exact ⟨t, by simp [h.1, h.2]⟩
  · rintro ⟨t, rfl⟩
    simp [startsWith]

theorem startsWith_three {a b c : Nat} {l : List Nat} :
    startsWith [a, b, c] l = true ↔ ∃ t, l = a :: b :: c :: t := by
  constructor
  · intro h
    match l with
    | [] => simp [startsWith] at h
    | [x] => simp [startsWith] at h
    | [x, y] => simp [startsWith] at h
    | x :: y :: z :: t =>
      simp [startsWith] at h
      exact ⟨t, by simp [h.1, h.2.1, h.2.2]⟩
  · rintro ⟨t, rfl⟩
    simp [startsWith]

theorem startsWith_append_right {p l : List Nat} (t : List Nat)
    (h : startsWith p l = true) : startsWith p (l ++ t) = true := by
  induction p generalizing l with
  | nil => simp [startsWith]
  | cons x xs ih =>
    match l with
    | [] => simp [startsWith] at h
    | y :: ys =>
      simp only [startsWith, Bool.and_eq_true] at h ⊢
      exact ⟨h.1, ih h.2⟩

theorem startsWith_le_length {p l : List Nat} (h : startsWith p l = true) :
    p.length ≤ l.length := by
  induction p generalizing l with
  | nil => simp
  | cons x xs ih =>
    match l with
    | [] => simp [startsWith] at h
    | y :: ys =>
      simp only [startsWith, Bool.and_eq_true] at h
      simpa using ih h.2

theorem utf8DecodeLoop_cons_of_ok (e : ErrorMode) (s : U8State) (b : Nat) (rest : List Nat)
    (h : (utf8Step s b).2.2 = false) :
    utf8DecodeLoop e s (b :: rest) =
      appendOpt (utf8Step s b).2.1 (utf8DecodeLoop e (utf8Step s b).1 rest) := by
  cases e <;> simp [utf8DecodeLoop, h]

theorem utf8DecodeLoop_one (e : ErrorMode) (b : Nat) (rest : List Nat) (h : b < 0x80) :
    utf8DecodeLoop e u8init (b :: rest) = consOpt b (utf8DecodeLoop e u8init rest) := by
  have s1 : utf8Step u8init b = (u8init, [b], false) := by
    simp [utf8Step, u8init, utf8Start, h]
  rw [utf8DecodeLoop_cons_of_ok _ _ _ _ (by rw [s1])]
  rw [s1, appendOpt_single]

theorem utf8DecodeLoop_two (e : ErrorMode) (b0 b1 : Nat) (rest : List Nat)
    (h0 : 0xC2 ≤ b0 ∧ b0 ≤ 0xDF) (h1 : 0x80 ≤ b1 ∧ b1 ≤ 0xBF) :
    utf8DecodeLoop e u8init (b0 :: b1 :: rest) =
      consOpt ((b0 - 0xC0) * 64 + (b1 - 0x80)) (utf8DecodeLoop e u8init rest) := by
  have s1 : utf8Step u8init b0 = (⟨1, b0 - 0xC0, 0x80, 0xBF⟩, [], false) := by
    simp [utf8Step, u8init, utf8Start, h0]
    omega
  have s2 : utf8Step ⟨1, b0 - 0xC0, 0x80, 0xBF⟩ b1 =
      (u8init, [(b0 - 0xC0) * 64 + (b1 - 0x80)], false) := by
    simp [utf8Step, h1]
  rw [utf8DecodeLoop_cons_of_ok _ _ _ _ (by rw [s1])]
  rw [s1]
  simp only
  rw [utf8DecodeLoop_cons_of_ok _ _ _ _ (by rw [s2])]
  rw [s2]
  simp only
  rw [appendOpt_nil, appendOpt_single]

theorem utf8DecodeLoop_three (e : ErrorMode) (b0 b1 b2 : Nat) (rest : List Nat)
    (h0 : 0xE0 ≤ b0 ∧ b0 ≤ 0xEF) (h1 : utf8Lo b0 ≤ b1 ∧ b1 ≤ utf8Hi b0)
    (h2 : 0x80 ≤ b2 ∧ b2 ≤ 0xBF) :
    utf8DecodeLoop e u8init (b0 :: b1 :: b2 :: rest) =
      consOpt ((b0 - 0xE0) * 4096 + (b1 - 0x80) * 64 + (b2 - 0x80))
        (utf8DecodeLoop e u8init rest) := by
  have s1 : utf8Step u8init b0 = (⟨2, b0 - 0xE0, utf8Lo b0, utf8Hi b0⟩, [], false) := by
    have h : utf8Step u8init b0 = utf8Start b0 := rfl
    rw [h]
    unfold utf8Start
    rw [if_neg (by omega), if_neg (by omega), if_pos h0]
  have s2 : utf8Step ⟨2, b0 - 0xE0, utf8Lo b0, utf8Hi b0⟩ b1 =
      (⟨1, (b0 - 0xE0) * 64 + (b1 - 0x80), 0x80, 0xBF⟩, [], false) := by
    simp [utf8Step, h1]
  have s3 : utf8Step ⟨1, (b0 - 0xE0) * 64 + (b1 - 0x80), 0x80, 0xBF⟩ b2 =
      (u8init, [((b0 - 0xE0) * 64 + (b1 - 0x80)) * 64 + (b2 - 0x80)], false) := by
    simp [utf8Step, h2]
  rw [utf8DecodeLoop_cons_of_ok _ _ _ _ (by rw [s1])]
  rw [s1]
  simp only
  rw [utf8DecodeLoop_cons_of_ok _ _ _ _ (by rw [s2])]
  rw [s2]
  simp only
  rw [utf8DecodeLoop_cons_of_ok _ _ _ _ (by rw [s3])]
  rw [s3]
  simp only
  rw [appendOpt_nil, appendOpt_nil, appendOpt_single]
  have harith : ((b0 - 0xE0) * 64 + (b1 - 0x80)) * 64 + (b2 - 0x80) =
      (b0 - 0xE0) * 4096 + (b1 - 0x80) * 64 + (b2 - 0x80) := by ring
  rw [harith]

theorem utf8DecodeLoop_four (e : ErrorMode) (b0 b1 b2 b3 : Nat) (rest : List Nat)
    (h0 : 0xF0 ≤ b0 ∧ b0 ≤ 0xF4) (h1 : utf8Lo b0 ≤ b1 ∧ b1 ≤ utf8Hi b0)
    (h2 : 0x80 ≤ b2 ∧ b2 ≤ 0xBF) (h3 : 0x80 ≤ b3 ∧ b3 ≤ 0xBF) :
    utf8DecodeLoop e u8init (b0 :: b1 :: b2 :: b3 :: rest) =
      consOpt ((b0 - 0xF0) * 262144 + (b1 - 0x80) * 4096 + (b2 - 0x80) * 64 + (b3 - 0x80))
        (utf8DecodeLoop e u8init rest) := by
  have s1 : utf8Step u8init b0 = (⟨3, b0 - 0xF0, utf8Lo b0, utf8Hi b0⟩, [], false) := by
    have h : utf8Step u8init b0 = utf8Start b0 := rfl
    rw [h]
    unfold utf8Start
    rw [if_neg (by omega), if_neg (by omega), if_neg (by omega), if_pos h0]
  have s2 : utf8Step ⟨3, b0 - 0xF0, utf8Lo b0, utf8Hi b0⟩ b1 =
      (⟨2, (b0 - 0xF0) * 64 + (b1 - 0x80), 0x80, 0xBF⟩, [], false) := by
    simp [utf8Step, h1]
  have s3 : utf8Step ⟨2, (b0 - 0xF0) * 64 + (b1 - 0x80), 0x80, 0xBF⟩ b2 =
      (⟨1, ((b0 - 0xF0) * 64 + (b1 - 0x80)) * 64 + (b2 - 0x80), 0x80, 0xBF⟩, [], false) := by
    simp [utf8Step, h2]
  have s4 : utf8Step ⟨1, ((b0 - 0xF0) * 64 + (b1 - 0x80)) * 64 + (b2 - 0x80), 0x80, 0xBF⟩ b3 =
      (u8init, [(((b0 - 0xF0) * 64 + (b1 - 0x80)) * 64 + (b2 - 0x80)) * 64 + (b3 - 0x80)],
        false) := by
    simp [utf8Step, h3]
  rw [utf8DecodeLoop_cons_of_ok _ _ _ _ (by rw [s1])]
  rw [s1]
  simp only
  rw [utf8DecodeLoop_cons_of_ok _ _ _ _ (by rw [s2])]
  rw [s2]
  simp only
  rw [utf8DecodeLoop_cons_of_ok _ _ _ _ (by rw [s3])]
  rw [s3]
  simp only
  rw [utf8DecodeLoop_cons_of_ok _ _ _ _ (by rw [s4])]
  rw [s4]
  simp only
  rw [appendOpt_nil, appendOpt_nil, appendOpt_nil, appendOpt_single]
  have harith : (((b0 - 0xF0) * 64 + (b1 - 0x80)) * 64 + (b2 - 0x80)) * 64 + (b3 - 0x80) =
      (b0 - 0xF0) * 262144 + (b1 - 0x80) * 4096 + (b2 - 0x80) * 64 + (b3 - 0x80) := by ring
  rw [harith]

theorem consOpt_appendOpt (c : Nat) (s : List Nat) (o : Option (List Nat)) :
    consOpt c (appendOpt s o) = appendOpt (c :: s) o := by
  cases o <;> rfl

theorem utf8DecodeLoop_encodeChar (c : Nat) (hc : validScalar c) (e : ErrorMode)
    (rest : List Nat) :
    utf8DecodeLoop e u8init (utf8EncodeChar c ++ rest) =
      consOpt c (utf8DecodeLoop e u8init rest) := by
  obtain ⟨hlt, hsur⟩ := hc
  by_cases hA : c < 0x80
  · rw [show utf8EncodeChar c = [c] from by unfold utf8EncodeChar; rw [if_pos hA]]
    simpa using utf8DecodeLoop_one e c rest hA
  · by_cases hB : c < 0x800
    · rw [show utf8EncodeChar c = [0xC0 + c / 64, 0x80 + c % 64] from by
        unfold utf8EncodeChar; rw [if_neg hA, if_pos hB]]
      simp only [List.cons_append, List.nil_append]
      rw [utf8DecodeLoop_two e _ _ rest (by omega) (by omega)]
      have harith : (0xC0 + c / 64 - 0xC0) * 64 + (0x80 + c % 64 - 0x80) = c := by omega
      rw [harith]
    · by_cases hC : c < 0x10000
      · rw [show utf8EncodeChar c = [0xE0 + c / 4096, 0x80 + c / 64 % 64, 0x80 + c % 64] from by
          unfold utf8EncodeChar; rw [if_neg hA, if_neg hB, if_pos hC]]
        simp only [List.cons_append, List.nil_append]
        have hlo : utf8Lo (0xE0 + c / 4096) ≤ 0x80 + c / 64 % 64 := by
          unfold utf8Lo
          split_ifs with hE hF
          · simp only [beq_iff_eq] at hE
            omega
          · simp only [beq_iff_eq] at hF
            omega
          · omega
        have hhi : 0x80 + c / 64 % 64 ≤ utf8Hi (0xE0 + c / 4096) := by
          unfold utf8Hi
          split_ifs with hE hF
          · simp only [beq_iff_eq] at hE
            omega
          · simp only [beq_iff_eq] at hF
            omega
          · omega
        rw [utf8DecodeLoop_three e _ _ _ rest (by omega) ⟨hlo, hhi⟩ (by omega)]
        have harith : (0xE0 + c / 4096 - 0xE0) * 4096 + (0x80 + c / 64 % 64 - 0x80) * 64 +
            (0x80 + c % 64 - 0x80) = c := by omega
        rw [harith]
      · rw [show utf8EncodeChar c =
            [0xF0 + c / 262144, 0x80 + c / 4096 % 64, 0x80 + c / 64 % 64, 0x80 + c % 64] from by
          unfold utf8EncodeChar; rw [if_neg hA, if_neg hB, if_neg hC]]
        simp only [List.cons_append, List.nil_append]
        have hlo : utf8Lo (0xF0 + c / 262144) ≤ 0x80 + c / 4096 % 64 := by
          unfold utf8Lo
          split_ifs with hE hF
          · simp only [beq_iff_eq] at hE
            omega
          · simp only [beq_iff_eq] at hF
            omega
          · omega
        have hhi : 0x80 + c / 4096 % 64 ≤ utf8Hi (0xF0 + c / 262144) := by
          unfold utf8Hi
          split_ifs with hE hF
          · simp only [beq_iff_eq] at hE
            omega
          · simp only [beq_iff_eq] at hF
            omega
          · omega
        rw [utf8DecodeLoop_four e _ _ _ _ rest (by omega) ⟨hlo, hhi⟩ (by omega) (by omega)]
        have harith : (0xF0 + c / 262144 - 0xF0) * 262144 + (0x80 + c / 4096 % 64 - 0x80) * 4096 +
            (0x80 + c / 64 % 64 - 0x80) * 64 + (0x80 + c % 64 - 0x80) = c := by omega
        rw [harith]

theorem utf8Bytes_cons (c : Nat) (s : List Nat) :
    utf8Bytes (c :: s) = utf8EncodeChar c ++ utf8Bytes s := by
  simp [utf8Bytes, flat]

theorem utf8DecodeLoop_utf8Bytes (s : List Nat) (hv : ∀ c ∈ s, validScalar c) (e : ErrorMode)
    (rest : List Nat) :
    utf8DecodeLoop e u8init (utf8Bytes s ++ rest) =
      appendOpt s (utf8DecodeLoop e u8init rest) := by
  induction s with
  | nil =>
    rw [show utf8Bytes [] = [] from rfl, List.nil_append, appendOpt_nil]
  | cons c cs ih =>
    rw [utf8Bytes_cons, List.append_assoc,
      utf8DecodeLoop_encodeChar c (hv c (by simp)) e,
      ih (fun x hx => hv x (by simp [hx])), consOpt_appendOpt]

theorem utf8Decode_utf8Bytes (s : List Nat) (hv : ∀ c ∈ s, validScalar c) (e : ErrorMode) :
    utf8Decode e (utf8Bytes s) = some s := by
  unfold utf8Decode
  rw [show utf8Bytes s = utf8Bytes s ++ [] from (List.append_nil _).symm,
    utf8DecodeLoop_utf8Bytes s hv e]
  simp [utf8DecodeLoop, u8init, appendOpt]

theorem utf8Encode_valid (s : List Nat) (hv : ∀ c ∈ s, validScalar c) (e : ErrorMode) :
    utf8Encode e s = some (utf8Bytes s) := by
  induction s with
  | nil => rfl
  | cons c cs ih =>
    simp only [utf8Encode]
    rw [if_pos (hv c (by simp)), ih (fun x hx => hv x (by simp [hx]))]
    rw [utf8Bytes_cons]
    rfl

theorem utf8EncodeChar_head (c : Nat) (hc : validScalar c) :
    ∃ b t, utf8EncodeChar c = b :: t ∧ b < 0xF5 := by
  obtain ⟨hlt, hsur⟩ := hc
  unfold utf8EncodeChar
  split_ifs with hA hB hC
  · exact ⟨c, [], rfl, by omega⟩
  · exact ⟨_, _, rfl, by omega⟩
  · exact ⟨_, _, rfl, by omega⟩
  · exact ⟨_, _, rfl, by omega⟩

theorem utf8Bytes_no_mark (s : List Nat) (hv : ∀ c ∈ s, validScalar c) (a b : Nat)
    (ha : 0xF5 ≤ a) : startsWith [a, b] (utf8Bytes s) = false := by
  match s with
  | [] => rfl
  | c :: cs =>
    rw [utf8Bytes_cons]
    obtain ⟨b0, t, he, hb⟩ := utf8EncodeChar_head c (hv c (by simp))
    rw [he]
    simp only [List.cons_append, startsWith, Bool.and_eq_false_iff]
    left
    simp only [beq_eq_false_iff_ne, ne_eq]
    omega

theorem utf8Encode_bom (e : ErrorMode) (s out : List Nat) (h : utf8Encode e s = some out)
    (hb : startsWith [0xEF, 0xBB, 0xBF] out = true) : s.head? = some 0xFEFF := by
  obtain ⟨tail, rfl⟩ := startsWith_three.mp hb
  match s with
  | [] =>
    simp only [utf8Encode] at h
    exact absurd h.symm (by simp)
  | c :: cs =>
    simp only [List.head?_cons, Option.some.injEq]
    simp only [utf8Encode] at h
    by_cases hvc : validScalar c
    · rw [if_pos hvc] at h
      obtain ⟨hlt, hsur⟩ := hvc
      cases henc : utf8Encode e cs with
      | none => rw [henc] at h; simp [appendOpt] at h
      | some out2 =>
        rw [henc] at h
        simp only [appendOpt, Option.some.injEq] at h
        unfold utf8EncodeChar at h
        split_ifs at h with hA hB hC
        · simp only [List.cons_append, List.nil_append, List.cons.injEq] at h
          omega
        · simp only [List.cons_append, List.nil_append, List.cons.injEq] at h
          omega
        · simp only [List.cons_append, List.nil_append, List.cons.injEq] at h
          omega
        · simp only [List.cons_append, List.nil_append, List.cons.injEq] at h
          omega
    · rw [if_neg hvc] at h
      cases e with
      | strict => simp at h
      | replace =>
        cases henc : utf8Encode .replace cs with
        | none => rw [henc] at h; simp [consOpt] at h
        | some out2 =>
          rw [henc] at h
          simp only [consOpt, Option.some.injEq, List.cons.injEq] at h
          omega

theorem utf8DecodeLoop_replace_isSome (l : List Nat) :
    ∀ s, (utf8DecodeLoop .replace s l).isSome = true := by
  induction l with
  | nil =>
    intro s
    rw [utf8DecodeLoop]
    split_ifs <;> simp
  | cons b rest ih =>
    intro s
    rw [show utf8DecodeLoop .replace s (b :: rest) =
        appendOpt (utf8Step s b).2.1 (utf8DecodeLoop .replace (utf8Step s b).1 rest) from rfl]
    rw [appendOpt_isSome]
    exact ih _

theorem utf16DecodeUnits_replace_isSome (be : Bool) :
    ∀ n l, List.length l ≤ n → (utf16DecodeUnits .replace be l).isSome = true := by
  intro n
  induction n with
  | zero =>
    intro l h
    match l with
    | [] => rfl
    | _ :: _ => simp at h
  | succ n ih =>
    intro l h
    match l with
    | [] => rfl
    | [_] => rfl
    | [b0, b1] =>
      rw [utf16DecodeUnits]
      split_ifs <;> simp
    | [b0, b1, x] =>
      rw [utf16DecodeUnits]
      split_ifs <;> simp
    | b0 :: b1 :: b2 :: b3 :: rest =>
      rw [utf16DecodeUnits]
      simp only [List.length_cons] at h
      split_ifs <;> rw [consOpt_isSome] <;> apply ih <;>
        (try simp only [List.length_cons]) <;> omega

theorem utf16Decode_replace_isSome (bs : List Nat) :
    (utf16Decode .replace bs).isSome = true := by
  unfold utf16Decode
  split_ifs <;> exact utf16DecodeUnits_replace_isSome _ _ _ (le_refl _)

theorem w1252Decode_replace_isSome (l : List Nat) :
    (w1252Decode .replace l).isSome = true := by
  induction l with
  | nil => rfl
  | cons b rest ih =>
    rw [w1252Decode]
    cases w1252DecodeByte b <;> simp only [consOpt_isSome] <;> exact ih

theorem engineDecode_replace_isSome (name : String) (bs : List Nat)
    (h : name = "utf-8" ∨ name = "utf_8_sig" ∨ name = "utf_16" ∨ name = "windows-1252") :
    (engineDecode name bs .replace).isSome = true := by
  have h8 : ∀ l : List Nat, (utf8Decode ErrorMode.replace l).isSome = true := fun l =>
    utf8DecodeLoop_replace_isSome l u8init
  rcases h with rfl | rfl | rfl | rfl
  · exact h8 bs
  · rw [show engineDecode "utf_8_sig" bs .replace =
        (if startsWith [0xEF, 0xBB, 0xBF] bs then utf8Decode .replace (bs.drop 3)
         else utf8Decode .replace bs) from rfl]
    split_ifs <;> exact h8 _
  · exact utf16Decode_replace_isSome bs
  · exact w1252Decode_replace_isSome bs

theorem LABELS_values (k : List Nat) (v : String) (h : assocFind k LABELS = some v) :
    v = "utf-8" ∨ v = "windows-1252" := by
  simp only [LABELS, assocFind] at h
  split_ifs at h <;> simp_all

theorem bomLoop_reconstitute (chunks : List (List Nat)) :
    ∀ enc buf, (bomLoop enc chunks buf).2.1 ++ flat (bomLoop enc chunks buf).2.2 =
      buf ++ flat chunks := by
  induction chunks with
  | nil =>
    intro enc buf
    simp [bomLoop, flat]
  | cons c it ih =>
    intro enc buf
    rw [bomLoop]
    split_ifs with h1 h2 h3
    · simp [flat]
    · simp [flat]
    · simp [flat]
    · rw [ih]
      simp [flat]

theorem bomLoop_exhaust (chunks : List (List Nat)) :
    ∀ enc buf, (buf ++ flat chunks).length < 3 →
    startsWith [0xFF, 0xFE] (buf ++ flat chunks) = false →
    startsWith [0xFE, 0xFF] (buf ++ flat chunks) = false →
    bomLoop enc chunks buf = (enc, buf ++ flat chunks, []) := by
  induction chunks with
  | nil =>
    intro enc buf h1 h2 h3
    simp [bomLoop, flat]
  | cons c it ih =>
    intro enc buf hlen hm1 hm2
    have hfl : buf ++ flat (c :: it) = (buf ++ c) ++ flat it := by
      simp [flat]
    rw [hfl] at hlen hm1 hm2 ⊢
    have hn1 : startsWith [0xFF, 0xFE] (buf ++ c) = false := by
      cases hsw : startsWith [0xFF, 0xFE] (buf ++ c) with
      | false => rfl
      | true => rw [startsWith_append_right (flat it) hsw] at hm1; exact hm1.symm ▸ rfl
    have hn2 : startsWith [0xFE, 0xFF] (buf ++ c) = false := by
      cases hsw : startsWith [0xFE, 0xFF] (buf ++ c) with
      | false => rfl
      | true => rw [startsWith_append_right (flat it) hsw] at hm2; exact hm2.symm ▸ rfl
    have hlen2 : (buf ++ c).length < 3 := by
      have := List.length_append (buf ++ c) (flat it)
      omega
    have hn3 : startsWith [0xEF, 0xBB, 0xBF] (buf ++ c) = false := by
      cases hsw : startsWith [0xEF, 0xBB, 0xBF] (buf ++ c) with
      | false => rfl
      | true =>
        have h4 := startsWith_le_length hsw
        simp only [List.length_cons, List.length_nil] at h4
        omega
    rw [bomLoop]
    rw [if_neg (by simp [hn1, hn2]), if_neg (by simp [hn3]), if_neg (by omega)]
    exact ih enc (buf ++ c) hlen hm1 hm2

theorem bomLoop_bounded (chunks : List (List Nat)) :
    ∀ enc buf, (∀ c ∈ chunks, c ≠ []) → buf.length ≤ 2 →
    ∃ k fin, bomLoop enc chunks buf =
        (fin, buf ++ flat (List.take k chunks), List.drop k chunks) ∧
      k + buf.length ≤ 3 ∧ k ≤ chunks.length := by
  induction chunks with
  | nil =>
    intro enc buf hne hbuf
    exact ⟨0, enc, by simp [bomLoop, flat], by omega, by omega⟩
  | cons c it ih =>
    intro enc buf hne hbuf
    have hc : 1 ≤ c.length := by
      have := hne c (by simp)
      cases c with
      | nil => exact absurd rfl this
      | cons x xs => simp
    rw [bomLoop]
    split_ifs with h1 h2 h3
    · exact ⟨1, "utf_16", by simp [flat], by omega, by simp⟩
    · exact ⟨1, "utf_8_sig", by simp [flat], by omega, by simp⟩
    · exact ⟨1, enc, by simp [flat], by omega, by simp⟩
    · have hlen : (buf ++ c).length ≤ 2 := by
        simp at h3
        simpa using Nat.le_of_lt_succ h3
      obtain ⟨k, fin, heq, hk3, hkl⟩ := ih enc (buf ++ c) (fun x hx => hne x (by simp [hx])) hlen
      refine ⟨k + 1, fin, ?_, ?_, ?_⟩
      · rw [heq]
        simp [flat, List.append_assoc]
      · have := List.length_append buf c
        omega
      · simp
        omega

theorem ASCII_WHITESPACE_eq : ASCII_WHITESPACE = [9, 10, 12, 13, 32] := by decide

theorem contains_eq_specIsAsciiWs :
    (fun c => ASCII_WHITESPACE.contains c) = specIsAsciiWs := by
  funext c
  rw [ASCII_WHITESPACE_eq]
  by_cases h1 : c = 9 <;> by_cases h2 : c = 10 <;> by_cases h3 : c = 12 <;>
    by_cases h4 : c = 13 <;> by_cases h5 : c = 32 <;>
    simp [specIsAsciiWs, List.contains, h1, h2, h3, h4, h5]

theorem ASCII_LOWERCASE_MAP_eq : ASCII_LOWERCASE_MAP =
    [(65, 97), (66, 98), (67, 99), (68, 100), (69, 101), (70, 102), (71, 103),
     (72, 104), (73, 105), (74, 106), (75, 107), (76, 108), (77, 109), (78, 110),
     (79, 111), (80, 112), (81, 113), (82, 114), (83, 115), (84, 116), (85, 117),
     (86, 118), (87, 119), (88, 120), (89, 121), (90, 122)] := by decide

theorem assocFindNat_none (c : Nat) (ps : List (Nat × Nat)) (h : ∀ p ∈ ps, p.1 ≠ c) :
    assocFindNat c ps = none := by
  induction ps with
  | nil => rfl
  | cons p rest ih =>
    obtain ⟨a, b⟩ := p
    rw [assocFindNat]
    rw [if_neg ?_]
    · exact ih (fun q hq => h q (by simp [hq]))
    · simp only [beq_iff_eq]
      exact fun hc => (h (a, b) (by simp)) hc.symm

theorem assocFindNat_lowercase (c : Nat) :
    assocFindNat c ASCII_LOWERCASE_MAP =
      if 65 ≤ c ∧ c ≤ 90 then some (c + 32) else none := by
  rw [ASCII_LOWERCASE_MAP_eq]
  by_cases h : 65 ≤ c ∧ c ≤ 90
  · rw [if_pos h]
    obtain ⟨hl, hr⟩ := h
    interval_cases c <;> decide
  · rw [if_neg h]
    apply assocFindNat_none
    intro p hp
    fin_cases hp <;> omega

theorem pyNormalize_eq_specNormalize (l : List Nat) : pyNormalize l = specNormalize l := by
  unfold pyNormalize specNormalize pyTranslate pyStrip specStrip
  rw [contains_eq_specIsAsciiWs]
  congr 1
  funext c
  rw [assocFindNat_lowercase]
  unfold specLowerChar
  split_ifs with h <;> rfl

/-- Claim C1: the claim says `iterdecode` without an explicit error-mode
argument behaves as with `'replace'`; the source's default is `'strict'`
(src line 70), contradicting the function's own docstring ("the default
error handling for iterdecode ... is replace").  Evaluating the code at
the failing input `iterdecode([b'\xFF'], 'utf-8')`: the default raises a
codec error while `'replace'` yields one U+FFFD. -/
theorem C1_iterdecode_default_error_mode :
    iterdecode [[0xFF]] (strToCodes "utf-8") = .error .codecError ∧
    iterdecodeWith [[0xFF]] (strToCodes "utf-8") .replace = .ok [0xFFFD] ∧
    iterdecode [[0xFF]] (strToCodes "utf-8") ≠
      iterdecodeWith [[0xFF]] (strToCodes "utf-8") .replace := by
  refine ⟨by decide, by decide, by decide⟩

/-- Claim C5: for every label whose normalized form is absent from the
Label Table, `decode`, `encode`, `iterdecode` and `iterencode` all
return the unknown-label error, for every byte input (even one starting
with a BOM), every text input and every chunk sequence — the result does
not depend on the input at all, so the failure precedes any inspection
of it. -/
theorem C5_unknown_label_fail_fast (label : List Nat)
    (h : assocFind (pyNormalize label) LABELS = none) :
    (∀ bs e, decodeWith bs label e = .error .lookupError) ∧
    (∀ s e, encodeWith s label e = .error .lookupError) ∧
    (∀ chunks e, iterdecodeWith chunks label e = .error .lookupError) ∧
    (∀ texts e, iterencodeWith texts label e = .error .lookupError) := by
  have hl : lookup label = none := h
  exact ⟨fun bs e => by simp [decodeWith, hl],
    fun s e => by simp [encodeWith, hl],
    fun chunks e => by simp [iterdecodeWith, hl],
    fun texts e => by simp [iterencodeWith, hl]⟩

/-- Witness for C5 at the label `"not-a-real-encoding"`, with a byte
input that begins with a recognizable BOM. -/
theorem C5_unknown_label_fail_fast_witness :
    decodeWith [0xEF, 0xBB, 0xBF, 0x41] (strToCodes "not-a-real-encoding") .replace =
      .error .lookupError ∧
    iterdecodeWith [[0xFE, 0xFF]] (strToCodes "not-a-real-encoding") .replace =
      .error .lookupError := by
  have h := C5_unknown_label_fail_fast (strToCodes "not-a-real-encoding") (by decide)
  exact ⟨h.1 _ _, h.2.2.1 _ _⟩

/-- Claim C6: the source's label normalization equals the spec's
(strip exactly tab, LF, FF, CR, space from both ends; lowercase exactly
A–Z; leave everything else unchanged), and `lookup` is a function of the
normalized label only. -/
theorem C6_label_normalization :
    (∀ l, pyNormalize l = specNormalize l) ∧
    (∀ l1 l2, pyNormalize l1 = pyNormalize l2 → lookup l1 = lookup l2) := by
  refine ⟨pyNormalize_eq_specNormalize, fun l1 l2 h => ?_⟩
  unfold lookup
  rw [h]

/-- Witness for C6: `"  UTF-8  "` and `"utf-8"` normalize identically
and resolve to the same name. -/
theorem C6_label_normalization_witness :
    pyNormalize (strToCodes "  UTF-8  ") = specNormalize (strToCodes "  UTF-8  ") ∧
    lookup (strToCodes "  UTF-8  ") = lookup (strToCodes "utf-8") ∧
    lookup (strToCodes "utf-8") = some "utf-8" := by
  exact ⟨C6_label_normalization.1 _, C6_label_normalization.2 _ _ (by decide), by decide⟩

/-- Claim C3: with a valid label, one-shot `decode` overrides the
resolved encoding by the sniffed BOM: a UTF-16BE mark FE FF (resp. the
UTF-16LE mark FF FE) makes it decode the remainder as UTF-16 with the
endianness taken from the mark; otherwise a UTF-8 BOM EF BB BF makes it
decode the remainder as UTF-8 with the BOM skipped; otherwise the
label-resolved encoding is used — whatever the label resolved to. -/
theorem C3_bom_overrides_label (label : List Nat) (enc : String) (h : lookup label = some enc)
    (bs : List Nat) (e : ErrorMode) :
    (startsWith [0xFE, 0xFF] bs = true →
      decodeWith bs label e = pyResultOfOption (utf16DecodeUnits e true (bs.drop 2))) ∧
    (startsWith [0xFF, 0xFE] bs = true →
      decodeWith bs label e = pyResultOfOption (utf16DecodeUnits e false (bs.drop 2))) ∧
    (startsWith [0xFF, 0xFE] bs = false → startsWith [0xFE, 0xFF] bs = false →
      startsWith [0xEF, 0xBB, 0xBF] bs = true →
      decodeWith bs label e = pyResultOfOption (utf8Decode e (bs.drop 3))) ∧
    (startsWith [0xFF, 0xFE] bs = false → startsWith [0xFE, 0xFF] bs = false →
      startsWith [0xEF, 0xBB, 0xBF] bs = false →
      decodeWith bs label e = pyResultOfOption (engineDecode enc bs e)) := by
  refine ⟨fun hbe => ?_, fun hle => ?_, fun hm1 hm2 hbom => ?_, fun hm1 hm2 hbom => ?_⟩
  · obtain ⟨t, rfl⟩ := startsWith_two.mp hbe
    simp [decodeWith, h, engineDecode, utf16Decode, startsWith]
  · obtain ⟨t, rfl⟩ := startsWith_two.mp hle
    simp [decodeWith, h, engineDecode, utf16Decode, startsWith]
  · obtain ⟨t, rfl⟩ := startsWith_three.mp hbom
    simp [decodeWith, h, engineDecode, startsWith]
  · simp [decodeWith, h, hm1, hm2, hbom]

/-- Witness for C3 at the label `"ascii"` (which resolves successfully
to windows-1252) with each BOM: the BOM wins over the resolved label. -/
theorem C3_bom_overrides_label_witness :
    lookup (strToCodes "ascii") = some "windows-1252" ∧
    decodeWith [0xFE, 0xFF, 0x00, 0x41] (strToCodes "ascii") .replace = .ok [0x41] ∧
    decodeWith [0xFF, 0xFE, 0x41, 0x00] (strToCodes "ascii") .replace = .ok [0x41] := by
  have h1 := (C3_bom_overrides_label (strToCodes "ascii") "windows-1252" (by decide)
    [0xFE, 0xFF, 0x00, 0x41] .replace).1 (by decide)
  have h2 := (C3_bom_overrides_label (strToCodes "ascii") "windows-1252" (by decide)
    [0xFF, 0xFE, 0x41, 0x00] .replace).2.1 (by decide)
  refine ⟨by decide, ?_, ?_⟩
  · rw [h1]; decide
  · rw [h2]; decide

/-- Claim C7: with a valid label and a chunk sequence totalling fewer
than 3 bytes that does not begin with a UTF-16 mark, the buffering loop
of `iterdecode` stops when the input is exhausted with the
label-resolved encoding and the whole accumulated input, and the result
is the decode of the accumulated bytes under that encoding. -/
theorem C7_short_input_degrades (label : List Nat) (enc : String) (h : lookup label = some enc)
    (chunks : List (List Nat)) (hlen : (flat chunks).length < 3)
    (hm1 : startsWith [0xFF, 0xFE] (flat chunks) = false)
    (hm2 : startsWith [0xFE, 0xFF] (flat chunks) = false) (e : ErrorMode) :
    bomLoop enc chunks [] = (enc, flat chunks, []) ∧
    iterdecodeWith chunks label e = pyResultOfOption (engineDecode enc (flat chunks) e) := by
  have hb : bomLoop enc chunks [] = (enc, flat chunks, []) := by
    have hx := bomLoop_exhaust chunks enc [] (by simpa using hlen) (by simpa using hm1)
      (by simpa using hm2)
    simpa using hx
  refine ⟨hb, ?_⟩
  simp [iterdecodeWith, h, hb, codecsIterdecode, flat]

/-- Witness for C7: two one-byte chunks, no BOM, label `"utf-8"`. -/
theorem C7_short_input_degrades_witness :
    iterdecodeWith [[0x68], [0x69]] (strToCodes "utf-8") .replace = .ok [0x68, 0x69] := by
  have h := C7_short_input_degrades (strToCodes "utf-8") "utf-8" (by decide)
    [[0x68], [0x69]] (by decide) (by decide) (by decide) .replace
  rw [h.2]
  decide

/-- Claim C10: with non-empty chunks, the buffering loop of `iterdecode`
consumes at most the first three chunks before committing to an
encoding, and the sequence handed to the codec engine's streaming
decode is the concatenation of the consumed chunks as one leading
element followed by the remaining chunks unchanged. -/
theorem C10_bounded_lookahead (enc : String) (chunks : List (List Nat))
    (hne : ∀ c ∈ chunks, c ≠ []) :
    ∃ k fin, k ≤ 3 ∧ k ≤ chunks.length ∧
      bomLoop enc chunks [] = (fin, flat (List.take k chunks), List.drop k chunks) ∧
      ∀ label e, lookup label = some enc →
        iterdecodeWith chunks label e =
          pyResultOfOption
            (codecsIterdecode (flat (List.take k chunks) :: List.drop k chunks) fin e) := by
  obtain ⟨k, fin, heq, hk3, hkl⟩ := bomLoop_bounded chunks enc [] hne (by simp)
  rw [List.nil_append] at heq
  refine ⟨k, fin, by omega, hkl, heq, fun label e hl => ?_⟩
  simp [iterdecodeWith, hl, heq]

/-- Witness for C10: four non-empty single-byte chunks. -/
theorem C10_bounded_lookahead_witness :
    ∃ k fin, k ≤ 3 ∧ k ≤ List.length [[0xEF], [0xBB], [0xBF], [0x61]] ∧
      bomLoop "utf-8" [[0xEF], [0xBB], [0xBF], [0x61]] [] =
        (fin, flat (List.take k [[0xEF], [0xBB], [0xBF], [0x61]]),
          List.drop k [[0xEF], [0xBB], [0xBF], [0x61]]) ∧
      ∀ label e, lookup label = some "utf-8" →
        iterdecodeWith [[0xEF], [0xBB], [0xBF], [0x61]] label e =
          pyResultOfOption
            (codecsIterdecode
              (flat (List.take k [[0xEF], [0xBB], [0xBF], [0x61]]) ::
                List.drop k [[0xEF], [0xBB], [0xBF], [0x61]]) fin e) :=
  C10_bounded_lookahead "utf-8" [[0xEF], [0xBB], [0xBF], [0x61]] (by decide)

/-- Claim C4: with a valid label, feeding the 3-byte UTF-8 BOM split
across two chunks (at either split point, followed by any remainder)
yields the same result as feeding it as one chunk; in both cases the
BOM is detected and skipped and the remainder is decoded as UTF-8; and
the reconstituted stream always contains exactly the input bytes in
order (none lost, none duplicated). -/
theorem C4_bom_chunk_split (label : List Nat) (enc : String) (h : lookup label = some enc)
    (k : Nat) (hk1 : 0 < k) (hk2 : k < 3) (rest : List (List Nat)) (e : ErrorMode) :
    iterdecodeWith
        (List.take k [0xEF, 0xBB, 0xBF] :: List.drop k [0xEF, 0xBB, 0xBF] :: rest) label e =
      iterdecodeWith ([0xEF, 0xBB, 0xBF] :: rest) label e ∧
    iterdecodeWith ([0xEF, 0xBB, 0xBF] :: rest) label e =
      pyResultOfOption (utf8Decode e (flat rest)) ∧
    (∀ encoding chunks buffer,
      (bomLoop encoding chunks buffer).2.1 ++ flat (bomLoop encoding chunks buffer).2.2 =
        buffer ++ flat chunks) := by
  have hone : bomLoop enc ([0xEF, 0xBB, 0xBF] :: rest) [] =
      ("utf_8_sig", [0xEF, 0xBB, 0xBF], rest) := by
    simp [bomLoop, startsWith]
  have hsplit : bomLoop enc
      (List.take k [0xEF, 0xBB, 0xBF] :: List.drop k [0xEF, 0xBB, 0xBF] :: rest) [] =
      ("utf_8_sig", [0xEF, 0xBB, 0xBF], rest) := by
    interval_cases k
    · simp [bomLoop, startsWith]
    · simp [bomLoop, startsWith]
  refine ⟨?_, ?_, fun encoding chunks buffer => bomLoop_reconstitute chunks encoding buffer⟩
  · simp [iterdecodeWith, h, hone, hsplit]
  · simp [iterdecodeWith, h, hone, codecsIterdecode, engineDecode, flat, startsWith]

/-- Witness for C4: BOM split as `[EF] + [BB BF]` with remainder `[61]`
under the `"utf-8"` label. -/
theorem C4_bom_chunk_split_witness :
    iterdecodeWith
        (List.take 1 [0xEF, 0xBB, 0xBF] :: List.drop 1 [0xEF, 0xBB, 0xBF] :: [[0x61]])
        (strToCodes "utf-8") .replace =
      iterdecodeWith ([0xEF, 0xBB, 0xBF] :: [[0x61]]) (strToCodes "utf-8") .replace ∧
    iterdecodeWith ([0xEF, 0xBB, 0xBF] :: [[0x61]]) (strToCodes "utf-8") .replace =
      .ok [0x61] := by
  have h := C4_bom_chunk_split (strToCodes "utf-8") "utf-8" (by decide) 1 (by decide)
    (by decide) [[0x61]] .replace
  refine ⟨h.1, ?_⟩
  rw [h.2.1]
  decide

/-- Claim C2 (amended): the UTF-8 round trip
`decode(encode(s, "utf-8"), "utf-8") = s` holds for every text `s` of
scalar values whose first code point is not U+FEFF; for `s` beginning
with U+FEFF it fails, because the encoded bytes begin with EF BB BF and
one-shot decode sniffs them as a BOM and skips them. -/
theorem C2_utf8_round_trip (s : List Nat) (hv : ∀ c ∈ s, validScalar c)
    (hh : s.head? ≠ some 0xFEFF) : utf8RoundTrip s = .ok s := by
  have hb : utf8Encode .strict s = some (utf8Bytes s) := utf8Encode_valid s hv .strict
  have hbom : startsWith [0xEF, 0xBB, 0xBF] (utf8Bytes s) = false := by
    cases hsw : startsWith [0xEF, 0xBB, 0xBF] (utf8Bytes s) with
    | false => rfl
    | true => exact absurd (utf8Encode_bom .strict s _ hb hsw) hh
  have hdec : decode (utf8Bytes s) (strToCodes "utf-8") = .ok s := by
    have hl : lookup (strToCodes "utf-8") = some "utf-8" := by decide
    simp only [decode, decodeWith, hl]
    rw [utf8Bytes_no_mark s hv 0xFF 0xFE (by omega), utf8Bytes_no_mark s hv 0xFE 0xFF (by omega),
      hbom]
    simp only [Bool.or_self, Bool.false_eq_true, if_false]
    rw [show engineDecode "utf-8" (utf8Bytes s) .replace = utf8Decode .replace (utf8Bytes s)
      from rfl]
    rw [utf8Decode_utf8Bytes s hv]
    rfl
  unfold utf8RoundTrip encode encodeWith
  rw [show lookup (strToCodes "utf-8") = some "utf-8" from by decide]
  simp only [engineEncode]
  rw [hb]
  exact hdec

/-- Witness for C2 at `s = "hi"`. -/
theorem C2_utf8_round_trip_witness : utf8RoundTrip [0x68, 0x69] = .ok [0x68, 0x69] :=
  C2_utf8_round_trip [0x68, 0x69] (by decide) (by decide)

/-- Counterexample to C2 as literally stated: for `s = [U+FEFF]` (a text
expressible in UTF-8), the round trip returns the empty text, not `s`:
the encoder emits EF BB BF, which decode then sniffs and skips as a
BOM. -/
theorem C2_utf8_round_trip_cex :
    utf8RoundTrip [0xFEFF] = .ok [] ∧ utf8RoundTrip [0xFEFF] ≠ .ok [0xFEFF] := by
  refine ⟨by decide, by decide⟩

/-- Claim C8: `decode` without an explicit error mode uses `'replace'`
(src line 45) — under which, for every valid label and every byte input,
decoding returns a text (undecodable bytes become U+FFFD, never a raise)
— while `encode` without an explicit error mode uses `'strict'`
(src line 65), under which an unencodable character is a failure with no
implicit replace fallback. -/
theorem C8_default_error_modes :
    (∀ bs label, decode bs label = decodeWith bs label .replace) ∧
    (∀ s label, encode s label = encodeWith s label .strict) ∧
    (∀ bs label enc, lookup label = some enc → ∃ t, decodeWith bs label .replace = .ok t) ∧
    decode [0xFF] (strToCodes "utf-8") = .ok [0xFFFD] ∧
    decodeWith [0xFF] (strToCodes "utf-8") .strict = .error .codecError ∧
    encode [0xD800] (strToCodes "utf-8") = .error .codecError := by
  refine ⟨fun _ _ => rfl, fun _ _ => rfl, ?_, by decide, by decide, by decide⟩
  intro bs label enc hl
  have hname : enc = "utf-8" ∨ enc = "utf_8_sig" ∨ enc = "utf_16" ∨ enc = "windows-1252" := by
    rcases LABELS_values _ _ hl with h | h
    · exact Or.inl h
    · exact Or.inr (Or.inr (Or.inr h))
  simp only [decodeWith, hl]
  split_ifs with h1 h2
  · obtain ⟨t, ht⟩ := Option.isSome_iff_exists.mp
      (engineDecode_replace_isSome "utf_16" bs (Or.inr (Or.inr (Or.inl rfl))))
    exact ⟨t, by rw [ht]; rfl⟩
  · obtain ⟨t, ht⟩ := Option.isSome_iff_exists.mp
      (engineDecode_replace_isSome "utf_8_sig" bs (Or.inr (Or.inl rfl)))
    exact ⟨t, by rw [ht]; rfl⟩
  · obtain ⟨t, ht⟩ := Option.isSome_iff_exists.mp (engineDecode_replace_isSome enc bs hname)
    exact ⟨t, by rw [ht]; rfl⟩

/-- Witness for C8: the default-mode identities at concrete inputs and
replace-mode totality at an undecodable windows-1252 input. -/
theorem C8_default_error_modes_witness :
    decode [0x41] (strToCodes "utf-8") = decodeWith [0x41] (strToCodes "utf-8") .replace ∧
    (∃ t, decodeWith [0x81, 0x8D] (strToCodes "ascii") .replace = .ok t) := by
  exact ⟨C8_default_error_modes.1 _ _,
    C8_default_error_modes.2.2.1 [0x81, 0x8D] (strToCodes "ascii") "windows-1252" (by decide)⟩

/-- Claim C9: `utf8_decode` decodes as UTF-8 and silently skips one
leading EF BB BF when present (its absence is not an error), so
`utf8_decode(BOM + b"abc") = "abc"`; and `utf8_encode` never emits a
leading BOM the text itself did not contain: if its output starts with
EF BB BF then the input began with U+FEFF, and `utf8_encode("abc")` has
no BOM prefix. -/
theorem C9_utf8_convenience_pair :
    (∀ bs e, utf8_decodeWith ([0xEF, 0xBB, 0xBF] ++ bs) e = pyResultOfOption (utf8Decode e bs)) ∧
    (∀ bs e, startsWith [0xEF, 0xBB, 0xBF] bs = false →
      utf8_decodeWith bs e = pyResultOfOption (utf8Decode e bs)) ∧
    utf8_decode ([0xEF, 0xBB, 0xBF] ++ strToCodes "abc") = .ok (strToCodes "abc") ∧
    (∀ s out e, utf8_encodeWith s e = .ok out →
      startsWith [0xEF, 0xBB, 0xBF] out = true → s.head? = some 0xFEFF) ∧
    utf8_encode (strToCodes "abc") = .ok (strToCodes "abc") ∧
    startsWith [0xEF, 0xBB, 0xBF] (strToCodes "abc") = false := by
  refine ⟨fun bs e => ?_, fun bs e hb => ?_, by decide, fun s out e he hb => ?_,
    by decide, by decide⟩
  · simp [utf8_decodeWith, engineDecode, startsWith]
  · simp [utf8_decodeWith, engineDecode, hb]
  · have hsome : utf8Encode e s = some out := by
      unfold utf8_encodeWith engineEncode at he
      cases hx : utf8Encode e s with
      | none => rw [hx] at he; exact absurd he (by simp [pyResultOfOption])
      | some t =>
        rw [hx] at he
        simp only [pyResultOfOption, PyResult.ok.injEq] at he
        rw [he]
    exact utf8Encode_bom e s out hsome hb

/-- Witness for C9: BOM-skip and no-BOM cases at concrete inputs. -/
theorem C9_utf8_convenience_pair_witness :
    utf8_decodeWith ([0xEF, 0xBB, 0xBF] ++ [0x61, 0x62, 0x63]) .strict =
      pyResultOfOption (utf8Decode .strict [0x61, 0x62, 0x63]) ∧
    utf8_decodeWith [0x61] .strict = pyResultOfOption (utf8Decode .strict [0x61]) := by
  exact ⟨C9_utf8_convenience_pair.1 _ _, C9_utf8_convenience_pair.2.1 _ _ (by decide)⟩
